import Mathlib

/-
Shallow embedding of `src/yival/evaluators/openai_elo_evaluator.py`
(the OpenAIEloEvaluator class and its `evaluate_based_on_all_results`
method), verified against the natural-language specification.

Modelling conventions:
* Python floats are modelled as real numbers (exact arithmetic).
* A treatment combination is identified by its stable string key
  (the Python code only ever uses `str(result.combination)` and
  `combo.combo_key`), so the `combination` field is the string key.
* Python exceptions (KeyError on a missing rating key, IndexError on a
  short response list) are modelled by `Option`: `none` is a raised
  exception, `some` a normal return.  The Python method returns `None`
  and mutates the experiment in place; the embedding returns the
  mutated value.
* The OpenAI chat call itself is outside the embedding: the list of
  raw verdict strings returned by `parallel_completions` is a
  parameter (`responses`), index-aligned with the built message list,
  exactly as the source consumes it.
-/

namespace YivalElo

/-- Per-treatment output row (`ExperimentResult`): the evaluator reads only
`str(result.combination)` (modelled directly as the string key) and
`result.raw_output`; the remaining metadata fields are never read. -/
structure ExperimentResult where
  combination : String
  raw_output : String
deriving DecidableEq, Repr

/-- One input group (`GroupedExperimentResult`). -/
structure GroupedExperimentResult where
  group_key : String
  experiment_results : List ExperimentResult
deriving DecidableEq, Repr

/-- A named evaluator metric (`EvaluatorOutput(name=..., result=...)`). -/
structure EvaluatorOutput where
  name : String
  result : ℝ

/-- Aggregated-metrics record for one treatment
(`CombinationAggregatedMetrics`): the evaluator reads `combo_key` and
reads/writes `evaluator_outputs`.  `none` models the Python field being
`None`/unset. -/
structure CombinationAggregatedMetrics where
  combo_key : String
  evaluator_outputs : Option (List EvaluatorOutput)

/-- The experiment container (`Experiment`), with the two listings the
evaluator touches. -/
structure Experiment where
  group_experiment_results : List GroupedExperimentResult
  combination_aggregated_metrics : List CombinationAggregatedMetrics

/-- The Elo rating constant K = 32 (module-level in the source). -/
noncomputable def K : ℝ := 32

/-- The expected score: `expected_score(self, r1, r2) = 1 / (1 + 10**((r2 - r1) / 400))`. -/
noncomputable def expected_score (r1 r2 : ℝ) : ℝ :=
  1 / (1 + (10 : ℝ) ^ ((r2 - r1) / 400))

/-- The rating update `update_elo(self, r1, r2, score1)`: returns the
pair of updated ratings. -/
noncomputable def update_elo (r1 r2 score1 : ℝ) : ℝ × ℝ :=
  (r1 + K * (score1 - expected_score r1 r2),
   r2 + K * ((1 - score1) - expected_score r2 r1))

/-- Verdict token to outcome: `1 if s == 'A' else 0 if s == 'B' else 0.5`
(lines 181 and 184 of the source). -/
noncomputable def interpret_verdict (s : String) : ℝ :=
  if s = "A" then 1 else if s = "B" then 0 else 0.5

/-- A Python dict with string keys and float values, as an ordered
association list (insertion order, unique keys). -/
abbrev RatingDict := List (String × ℝ)

/-- Dict lookup `d[k]`: `none` models a KeyError. -/
def dictGet? : RatingDict → String → Option ℝ
  | [], _ => none
  | (k1, v) :: rest, k => if k1 = k then some v else dictGet? rest k

/-- Dict store `d[k] = v`: overwrite the existing entry in place,
else append at the end (Python dict insertion-order semantics). -/
def dictInsert : RatingDict → String → ℝ → RatingDict
  | [], k, v => [(k, v)]
  | (k1, v1) :: rest, k, v =>
      if k1 = k then (k, v) :: rest else (k1, v1) :: dictInsert rest k v

/-- The initial rating table
`{combo.combo_key: 1200 for combo in experiment[0].combination_aggregated_metrics}`. -/
noncomputable def initRatings (cams : List CombinationAggregatedMetrics) : RatingDict :=
  cams.foldl (fun d c => dictInsert d c.combo_key 1200) []

/-- Python `itertools.combinations(l, 2)`, in the order Python emits them. -/
def combinations2 {α : Type} : List α → List (α × α)
  | [] => []
  | x :: xs => (xs.map fun y => (x, y)) ++ combinations2 xs

/-- The flattened pair stream: groups in listing order, pairs in
`itertools.combinations` order (both the message-building loop and the
rating fold-in loop enumerate exactly this). -/
def allPairs (groups : List GroupedExperimentResult) :
    List (ExperimentResult × ExperimentResult) :=
  groups.flatMap fun g => combinations2 g.experiment_results

/-- The fold-in loop (source lines 171-191).  For each pair it consumes
two verdicts, `responses[idx]` and `responses[idx+1]`; the second is
interpreted into `score2` but — exactly as in the source — `score2` is
never used: only `score1` (the A-order verdict) drives `update_elo`.
Missing responses or rating keys yield `none` (IndexError / KeyError). -/
noncomputable def foldMatches (responses : List String) :
    RatingDict → ℕ → List (ExperimentResult × ExperimentResult) → Option RatingDict
  | d, _, [] => some d
  | d, idx, (result1, result2) :: rest =>
      match responses.get? idx, (responses.get? (idx + 1)).map interpret_verdict,
            dictGet? d result1.combination, dictGet? d result2.combination with
      | some s1, some _score2, some r1, some r2 =>
          let u := update_elo r1 r2 (interpret_verdict s1)
          foldMatches responses
            (dictInsert (dictInsert d result1.combination u.1) result2.combination u.2)
            (idx + 2) rest
      | _, _, _, _ => none

/-- The final rating table of one experiment for a given verdict
sequence: fold every pair of every group into the initial table. -/
noncomputable def final_ratings (e : Experiment) (responses : List String) :
    Option RatingDict :=
  foldMatches responses (initRatings e.combination_aggregated_metrics) 0
    (allPairs e.group_experiment_results)

/-- The aggregation step for one record (source lines 197-205): if
`evaluator_outputs` is falsy (`None` or `[]`) start from `[]`, then
append one `EvaluatorOutput(name="openai_elo_evaluator", result=r)`. -/
noncomputable def appendElo (c : CombinationAggregatedMetrics) (r : ℝ) :
    CombinationAggregatedMetrics :=
  let outs := match c.evaluator_outputs with
    | none => []
    | some l => l
  { c with
      evaluator_outputs := some (outs ++ [⟨"openai_elo_evaluator", r⟩]) }

/-- The aggregation loop over all records (source lines 194-205); a
missing rating key would be a KeyError (`none`). -/
noncomputable def appendOutputs (d : RatingDict) :
    List CombinationAggregatedMetrics → Option (List CombinationAggregatedMetrics)
  | [] => some []
  | c :: rest =>
      match dictGet? d c.combo_key, appendOutputs d rest with
      | some r, some rest1 => some (appendElo c r :: rest1)
      | _, _ => none

/-- The whole of `evaluate_based_on_all_results` downstream of the
dispatcher, for the single experiment in the list. -/
noncomputable def runElo (e : Experiment) (responses : List String) :
    Option Experiment :=
  match final_ratings e responses with
  | none => none
  | some final =>
      match appendOutputs final e.combination_aggregated_metrics with
      | none => none
      | some cams => some { e with combination_aggregated_metrics := cams }

/-- The method `evaluate_based_on_all_results(self, experiment)` as a function of
the experiment list and the dispatcher's verdict strings: an early
`return` when `len(experiment) != 1`, otherwise rate and aggregate.
`none` models an uncaught exception; `some` the normal `None` return
with the (mutated) experiment list. -/
noncomputable def evaluate_based_on_all_results
    (experiment : List Experiment) (responses : List String) :
    Option (List Experiment) :=
  match experiment with
  | [e] => (runElo e responses).map fun e1 => [e1]
  | es => some es

/-- The precomputed `total_rounds` (source lines 108-111):
`sum(comb(len(g.experiment_results), 2) for g in groups) * 2`. -/
def total_rounds (e : Experiment) : ℕ :=
  (e.group_experiment_results.map
    (fun g => Nat.choose g.experiment_results.length 2)).sum * 2

/-
Embedding of the task-text extraction (source lines 117-124):
  pattern = r'content:\s*(\{.*?\})(?:,|$)'
  match = re.search(pattern, test_case)
  test_case = match.group(1) if match else ""
modelled by a direct matcher for this fixed pattern with Python `re`
semantics: leftmost start position wins; the whitespace star is greedy
(its follower, an opening brace, is never whitespace, so no backtracking
arises); the dot matches any character except a newline; the non-greedy
star takes the shortest extension whose closing brace is followed by a
comma or the end anchor; the end anchor matches at the end of the string
or just before a single trailing newline.  The pattern is compiled on a
str with no ASCII flag, so its whitespace atom is Unicode-aware: it
matches exactly the code points CPython treats as whitespace, namely
09-0D, 1C-1F, 20, 85, A0, 1680, 2000-200A, 2028, 2029, 202F, 205F and
3000 — the same set `str.strip()` removes.
-/

/-- Python whitespace predicate on a str: the regex whitespace atom (no
ASCII flag) and `str.strip()` both accept exactly these code points. -/
def pyIsSpace (c : Char) : Bool :=
  c = ' ' || c = '\t' || c = '\n' || c = '\r' || c = '\x0b' || c = '\x0c' ||
  (0x1c ≤ c.toNat && c.toNat ≤ 0x1f) || c.toNat = 0x85 || c.toNat = 0xa0 ||
  c.toNat = 0x1680 || (0x2000 ≤ c.toNat && c.toNat ≤ 0x200a) ||
  c.toNat = 0x2028 || c.toNat = 0x2029 || c.toNat = 0x202f ||
  c.toNat = 0x205f || c.toNat = 0x3000

/-- Python `str.strip()` with no argument: drop the whitespace code
points above from both ends of the string. -/
def pyStrip (s : String) : String :=
  String.mk (((s.toList.dropWhile pyIsSpace).reverse.dropWhile pyIsSpace).reverse)

/-- Python end anchor (no MULTILINE): at the end of the string, or just
before a newline that ends the string. -/
def pyDollar (s : List Char) (i : ℕ) : Bool :=
  i = s.length || (i + 1 = s.length && s.get? i == some '\n')

/-- A closing brace at `i` whose follower satisfies the comma-or-end
alternation. -/
def closeOk (s : List Char) (i : ℕ) : Bool :=
  s.get? i == some '\x7d' && (s.get? (i + 1) == some ',' || pyDollar s (i + 1))

/-- Non-greedy scan for the closing brace from position `i`: succeed at
the first position where `closeOk` holds, otherwise let the dot atom
consume one more non-newline character.  Returns the exclusive end of
the capture group. -/
def findClose (s : List Char) : ℕ → ℕ → Option ℕ
  | 0, _ => none
  | fuel + 1, i =>
      if closeOk s i then some (i + 1)
      else
        match s.get? i with
        | some c => if c = '\n' then none else findClose s fuel (i + 1)
        | none => none

/-- Greedy whitespace skip (the follower is an opening brace, which is
never whitespace, so greediness is exact). -/
def skipSpaces (s : List Char) : ℕ → ℕ → ℕ
  | 0, i => i
  | fuel + 1, i =>
      match s.get? i with
      | some c => if pyIsSpace c then skipSpaces s fuel (i + 1) else i
      | none => i

/-- Match the whole pattern at start position `i`; on success return the
capture group (the brace-delimited blob, braces included). -/
def matchAt (s : List Char) (i : ℕ) : Option (List Char) :=
  if (s.drop i).take 8 = "content:".toList then
    let j := skipSpaces s s.length (i + 8)
    if s.get? j == some '\x7b' then
      match findClose s s.length (j + 1) with
      | some e => some ((s.drop j).take (e - j))
      | none => none
    else none
  else none

/-- Leftmost search: try every start position in increasing order. -/
def searchFrom (s : List Char) : ℕ → ℕ → Option (List Char)
  | 0, _ => none
  | fuel + 1, i =>
      match matchAt s i with
      | some g => some g
      | none => if s.length ≤ i then none else searchFrom s fuel (i + 1)

/-- The task text inserted after the Prompt label: the first capture of
the pattern inside the group key, or the empty string when the pattern
does not occur (source lines 117-124). -/
def elo_test_case (group_key : String) : String :=
  match searchFrom group_key.toList (group_key.length + 1) 0 with
  | some g => String.mk g
  | none => ""

/-- The 24-space indentation of the continuation lines of the message
template f-string. -/
def msgIndent : String := "                        "

/-- The user-message content of one judgment request (source lines
136-139 and 150-153): the task description is stripped, the task text
`tc` follows the Prompt label, and the two raw outputs fill the
Generation A and Generation B slots. -/
def user_content (desc tc a b : String) : String :=
  "Task: " ++ pyStrip desc ++ "\n" ++ msgIndent ++ "Prompt: " ++ tc ++
    "\n" ++ msgIndent ++ "Generation A: " ++ a ++
    "\n" ++ msgIndent ++ "Generation B: " ++ b

/-- The two user messages built for one pair: message1 in pair order,
message2 with the order swapped (source lines 129-155). -/
def pair_messages (desc tc : String) (p : ExperimentResult × ExperimentResult) :
    List String :=
  [user_content desc tc p.1.raw_output p.2.raw_output,
   user_content desc tc p.2.raw_output p.1.raw_output]

/-- All user messages built for one group: the task text is computed
once per group from its key, then both orderings of every pair are
emitted. -/
def group_messages (desc : String) (g : GroupedExperimentResult) : List String :=
  (combinations2 g.experiment_results).flatMap
    (pair_messages desc (elo_test_case g.group_key))

/-- The `message_batches` list of source lines 114-155, projected to the
user message of each request (the system message is a shared constant),
in emission order: groups in listing order, pairs in combinations order,
A-order rendering then B-order rendering. -/
def message_batches (desc : String) (groups : List GroupedExperimentResult) :
    List String :=
  groups.flatMap (group_messages desc)

/-
Concrete fixtures used by witnesses and counterexample runs.
-/

/-- A treatment-A output row. -/
def erA : ExperimentResult := { combination := "comboA", raw_output := "outA" }

/-- A treatment-B output row. -/
def erB : ExperimentResult := { combination := "comboB", raw_output := "outB" }

/-- Aggregated-metrics record for treatment A, with no prior outputs. -/
def camA : CombinationAggregatedMetrics :=
  { combo_key := "comboA", evaluator_outputs := none }

/-- Aggregated-metrics record for treatment B, with no prior outputs. -/
def camB : CombinationAggregatedMetrics :=
  { combo_key := "comboB", evaluator_outputs := none }

/-- A group holding a single output: no opponents, no pairs. -/
def gSolo : GroupedExperimentResult :=
  { group_key := "gkey", experiment_results := [erA] }

/-- A group holding outputs of two treatments: exactly one unordered
pair. -/
def gPair : GroupedExperimentResult :=
  { group_key := "gkey", experiment_results := [erA, erB] }

/-- Experiment with one single-output group: an empty tournament. -/
def expSolo : Experiment :=
  { group_experiment_results := [gSolo],
    combination_aggregated_metrics := [camA] }

/-- Experiment with two treatments compared in one group. -/
def expPair : Experiment :=
  { group_experiment_results := [gPair],
    combination_aggregated_metrics := [camA, camB] }

/-- Experiment with no groups and no records at all. -/
def expEmpty : Experiment :=
  { group_experiment_results := [], combination_aggregated_metrics := [] }

/-- The evaluated solo experiment: its single record gains the baseline
rating as one appended output. -/
noncomputable def expSoloOut : Experiment :=
  { group_experiment_results := [gSolo],
    combination_aggregated_metrics :=
      [{ combo_key := "comboA",
         evaluator_outputs := some [⟨"openai_elo_evaluator", 1200⟩] }] }

/-- The evaluated two-treatment experiment as the code produces it:
1216 for the first-listed treatment and 1184 for the second. -/
noncomputable def expPairOut : Experiment :=
  { group_experiment_results := [gPair],
    combination_aggregated_metrics :=
      [{ combo_key := "comboA",
         evaluator_outputs := some [⟨"openai_elo_evaluator", 1216⟩] },
       { combo_key := "comboB",
         evaluator_outputs := some [⟨"openai_elo_evaluator", 1184⟩] }] }

/-
Helper lemmas about the embedded operations.
-/

/-- The two expected scores of one match always sum to one (exact real
arithmetic). -/
theorem expected_score_symm_sum (r1 r2 : ℝ) :
    expected_score r1 r2 + expected_score r2 r1 = 1 := by
  unfold expected_score
  have hneg : (r1 - r2) / 400 = -((r2 - r1) / 400) := by ring
  rw [hneg, Real.rpow_neg (by norm_num : (0:ℝ) ≤ 10)]
  have ht : (0:ℝ) < (10 : ℝ) ^ ((r2 - r1) / 400) :=
    Real.rpow_pos_of_pos (by norm_num) _
  set t := (10 : ℝ) ^ ((r2 - r1) / 400) with hdef
  have h1 : (1 : ℝ) + t ≠ 0 := by positivity
  have h2 : (1 : ℝ) + t⁻¹ ≠ 0 := by positivity
  field_simp
  ring

/-- Looking up the key just stored. -/
theorem dictGet?_dictInsert_self (d : RatingDict) (k : String) (v : ℝ) :
    dictGet? (dictInsert d k v) k = some v := by
  induction d with
  | nil => simp [dictInsert, dictGet?]
  | cons p rest ih =>
      obtain ⟨k1, v1⟩ := p
      by_cases h : k1 = k <;> simp [dictInsert, dictGet?, h, ih]

/-- Storing one key leaves every other key unchanged. -/
theorem dictGet?_dictInsert_ne (d : RatingDict) (k q : String) (v : ℝ)
    (h : q ≠ k) : dictGet? (dictInsert d k v) q = dictGet? d q := by
  induction d with
  | nil => simp [dictInsert, dictGet?, Ne.symm h]
  | cons p rest ih =>
      obtain ⟨k1, v1⟩ := p
      by_cases h1 : k1 = k
      · subst h1
        simp [dictInsert, dictGet?, Ne.symm h]
      · by_cases h2 : k1 = q <;> simp [dictInsert, dictGet?, h, h1, h2, ih]

/-- The initial table holds exactly the listed keys, each at 1200. -/
theorem dictGet?_initRatings (cams : List CombinationAggregatedMetrics)
    (k : String) :
    dictGet? (initRatings cams) k =
      if k ∈ cams.map (fun c => c.combo_key) then some 1200 else none := by
  have main : ∀ (cs : List CombinationAggregatedMetrics) (d : RatingDict),
      dictGet? (cs.foldl (fun d c => dictInsert d c.combo_key 1200) d) k =
        if k ∈ cs.map (fun c => c.combo_key) then some 1200 else dictGet? d k := by
    intro cs
    induction cs with
    | nil => intro d; simp
    | cons c rest ih =>
        intro d
        by_cases hc : c.combo_key = k
        · by_cases hr : k ∈ rest.map (fun c => c.combo_key) <;>
            simp [List.foldl_cons, ih, hc, hr, dictGet?_dictInsert_self]
        · simp [List.foldl_cons, ih, hc, Ne.symm hc,
            dictGet?_dictInsert_ne _ _ _ _ (Ne.symm hc)]
  simpa [initRatings, dictGet?] using main cams []

/-
Claim theorems.
-/

/-- C2: for all ratings r1, r2 and every outcome score1, the engine
computes expected_score(r1, r2) = 1 / (1 + 10^((r2 - r1)/400)), and
update_elo returns exactly (r1 + K*(score1 - expected_score(r1, r2)),
r2 + K*((1 - score1) - expected_score(r2, r1))) with K = 32. -/
theorem claim_C2_elo_formulas (r1 r2 score1 : ℝ) :
    expected_score r1 r2 = 1 / (1 + (10 : ℝ) ^ ((r2 - r1) / 400)) ∧
    update_elo r1 r2 score1 =
      (r1 + K * (score1 - expected_score r1 r2),
       r2 + K * ((1 - score1) - expected_score r2 r1)) ∧
    K = 32 :=
  ⟨rfl, rfl, rfl⟩

/-- C3: verdict interpretation is total on strings: the token A maps to
1.0, the token B maps to 0.0, and every other string maps to 0.5 (being
a total Lean function, it can neither raise nor propagate an error). -/
theorem claim_C3_verdict_total (s : String) :
    (s = "A" → interpret_verdict s = 1) ∧
    (s = "B" → interpret_verdict s = 0) ∧
    (s ≠ "A" → s ≠ "B" → interpret_verdict s = 0.5) := by
  refine ⟨fun h => ?_, fun h => ?_, fun h1 h2 => ?_⟩
  · simp [interpret_verdict, h]
  · simp [interpret_verdict, h]
  · simp [interpret_verdict, h1, h2]

/-- Witness for C3 at the concrete malformed verdict string. -/
theorem claim_C3_witness : interpret_verdict "garbled" = 0.5 :=
  (claim_C3_verdict_total "garbled").2.2 (by decide) (by decide)

/-- C4: with complementary outcome scores s1 + s2 = 1, the Elo update
with outcome s1 preserves total rating mass exactly (in the real
arithmetic modelling the floats). -/
theorem claim_C4_mass_conservation (r1 r2 s1 s2 : ℝ) (h : s1 + s2 = 1) :
    (update_elo r1 r2 s1).1 + (update_elo r1 r2 s1).2 = r1 + r2 := by
  have hsum := expected_score_symm_sum r1 r2
  simp only [update_elo, K]
  linarith

/-- Witness for C4 at concrete ratings 1300, 1100 and outcome 1. -/
theorem claim_C4_witness :
    (update_elo 1300 1100 1).1 + (update_elo 1300 1100 1).2 = 1300 + 1100 :=
  claim_C4_mass_conservation 1300 1100 1 0 (by norm_num)

/-- C8: the rating computation is deterministic: two runs on equal
experiments with equal verdict sequences produce equal final rating
tables and equal evaluated experiments. -/
theorem claim_C8_deterministic (e1 e2 : Experiment) (v1 v2 : List String)
    (he : e1 = e2) (hv : v1 = v2) :
    final_ratings e1 v1 = final_ratings e2 v2 ∧
    evaluate_based_on_all_results [e1] v1 =
      evaluate_based_on_all_results [e2] v2 := by
  subst he; subst hv; exact ⟨rfl, rfl⟩

/-- Witness for C8 at a concrete experiment and verdict list. -/
theorem claim_C8_witness :
    final_ratings expPair ["A", "A"] = final_ratings expPair ["A", "A"] ∧
    evaluate_based_on_all_results [expPair] ["A", "A"] =
      evaluate_based_on_all_results [expPair] ["A", "A"] :=
  claim_C8_deterministic expPair expPair ["A", "A"] ["A", "A"] rfl rfl

/-- C9: when the argument list does not hold exactly one experiment the
function returns immediately with every experiment unchanged: no
ratings are computed and nothing is appended. -/
theorem claim_C9_early_return (exps : List Experiment) (resp : List String)
    (h : exps.length ≠ 1) :
    evaluate_based_on_all_results exps resp = some exps := by
  cases exps with
  | nil => rfl
  | cons a t =>
      cases t with
      | nil => exact absurd rfl h
      | cons b t2 => rfl

/-- Witness for C9 on a two-experiment list. -/
theorem claim_C9_witness :
    evaluate_based_on_all_results [expSolo, expPair] ["A"] =
      some [expSolo, expPair] :=
  claim_C9_early_return [expSolo, expPair] ["A"] (by simp)

/-- The pair list of a group has binomial length. -/
theorem combinations2_length {α : Type} (l : List α) :
    (combinations2 l).length = Nat.choose l.length 2 := by
  induction l with
  | nil => rfl
  | cons x xs ih =>
      simp [combinations2, ih, Nat.choose_succ_succ, Nat.choose_one_right,
        Nat.add_comm]

/-- Twice the binomial coefficient choose n 2 is n * (n - 1). -/
theorem choose_two_mul_two (n : ℕ) : Nat.choose n 2 * 2 = n * (n - 1) := by
  induction n with
  | zero => rfl
  | succ m ih =>
      rw [Nat.choose_succ_succ, Nat.add_mul, ih, Nat.choose_one_right]
      cases m with
      | zero => rfl
      | succ k =>
          simp only [Nat.succ_sub_one]
          ring

/-- Each pair contributes exactly its two renderings to the flattened
message list. -/
theorem length_flatMap_pair_messages (desc tc : String)
    (l : List (ExperimentResult × ExperimentResult)) :
    (l.flatMap (pair_messages desc tc)).length = l.length * 2 := by
  induction l with
  | nil => rfl
  | cons x xs ih =>
      simp only [List.flatMap_cons, List.length_append, ih, pair_messages]
      simp
      omega

/-- Message count for one group: two per unordered pair. -/
theorem group_messages_length (desc : String) (g : GroupedExperimentResult) :
    (group_messages desc g).length =
      g.experiment_results.length * (g.experiment_results.length - 1) := by
  simp only [group_messages]
  rw [length_flatMap_pair_messages, combinations2_length, choose_two_mul_two]

/-- The emitted message count equals the precomputed round total. -/
theorem message_batches_length (desc : String)
    (groups : List GroupedExperimentResult) :
    (message_batches desc groups).length =
      (groups.map (fun g => Nat.choose g.experiment_results.length 2)).sum * 2 := by
  induction groups with
  | nil => rfl
  | cons g rest ih =>
      simp only [message_batches, List.flatMap_cons, List.length_append,
        List.map_cons, List.sum_cons, Nat.add_mul] at *
      rw [ih, group_messages_length, ← choose_two_mul_two]

/-- C5: for every group with n results the generator emits C(n,2)
unordered pairs and n*(n-1) requests (two per pair); a group with at
most one result emits none; and the precomputed total request count
equals the number of requests actually emitted. -/
theorem claim_C5_pair_counts (desc : String) (e : Experiment) :
    (∀ g ∈ e.group_experiment_results,
      (combinations2 g.experiment_results).length =
        Nat.choose g.experiment_results.length 2 ∧
      (group_messages desc g).length =
        g.experiment_results.length * (g.experiment_results.length - 1) ∧
      (g.experiment_results.length ≤ 1 → group_messages desc g = [])) ∧
    (message_batches desc e.group_experiment_results).length = total_rounds e := by
  constructor
  · intro g _
    refine ⟨combinations2_length _, group_messages_length _ _, fun hle => ?_⟩
    match hrs : g.experiment_results with
    | [] => simp [group_messages, hrs, combinations2]
    | [x] => simp [group_messages, hrs, combinations2]
    | x :: y :: rest => rw [hrs] at hle; simp at hle
  · rw [message_batches_length, total_rounds]

/-- Witness for C5 on the one-result group and its experiment. -/
theorem claim_C5_witness :
    group_messages "task" gSolo = [] ∧
    (message_batches "task" expSolo.group_experiment_results).length =
      total_rounds expSolo := by
  have h := claim_C5_pair_counts "task" expSolo
  exact ⟨(h.1 gSolo (by simp [expSolo])).2.2 (by simp [gSolo, erA]), h.2⟩

/-- The fold-in never touches a rating key that occurs in no pair. -/
theorem foldMatches_untouched (resp : List String) (k : String)
    (pairs : List (ExperimentResult × ExperimentResult))
    (hk : ∀ p ∈ pairs, p.1.combination ≠ k ∧ p.2.combination ≠ k) :
    ∀ d idx dfin, foldMatches resp d idx pairs = some dfin →
      dictGet? dfin k = dictGet? d k := by
  induction pairs with
  | nil =>
      intro d idx dfin h
      simp only [foldMatches] at h
      cases h
      rfl
  | cons p rest ih =>
      intro d idx dfin h
      obtain ⟨p1, p2⟩ := p
      obtain ⟨hp1, hp2⟩ := hk (p1, p2) (by simp)
      simp only [foldMatches] at h
      split at h
      · next s1 _sc2 r1 r2 _ =>
          have hrest := ih (fun q hq => hk q (List.mem_cons_of_mem _ hq)) _ _ _ h
          rw [hrest,
            dictGet?_dictInsert_ne _ _ _ _ (Ne.symm hp2),
            dictGet?_dictInsert_ne _ _ _ _ (Ne.symm hp1)]
      · exact absurd h (by simp)

/-- C6: every treatment key in the aggregated-metrics listing starts at
exactly 1200, however many groups compare it; and a key occurring in no
match still holds exactly 1200 in the final rating table. -/
theorem claim_C6_baseline (e : Experiment) (resp : List String) :
    (∀ k ∈ e.combination_aggregated_metrics.map (fun c => c.combo_key),
      dictGet? (initRatings e.combination_aggregated_metrics) k = some 1200) ∧
    (∀ k ∈ e.combination_aggregated_metrics.map (fun c => c.combo_key),
      (∀ p ∈ allPairs e.group_experiment_results,
        p.1.combination ≠ k ∧ p.2.combination ≠ k) →
      ∀ dfin, final_ratings e resp = some dfin →
        dictGet? dfin k = some 1200) := by
  constructor
  · intro k hk
    rw [dictGet?_initRatings]
    simp [hk]
  · intro k hk hnp dfin hrun
    rw [final_ratings] at hrun
    rw [foldMatches_untouched resp k _ hnp _ 0 dfin hrun, dictGet?_initRatings]
    simp [hk]

/-- Witness for C6: the solo experiment, whose single key joins no pair. -/
theorem claim_C6_witness :
    dictGet? (initRatings expSolo.combination_aggregated_metrics) "comboA" =
      some 1200 ∧
    dictGet? (initRatings expSolo.combination_aggregated_metrics) "comboA" =
      some 1200 := by
  have h := claim_C6_baseline expSolo []
  have hmem : "comboA" ∈
      expSolo.combination_aggregated_metrics.map (fun c => c.combo_key) := by
    simp [expSolo, camA]
  have hpairs : ∀ p ∈ allPairs expSolo.group_experiment_results,
      p.1.combination ≠ "comboA" ∧ p.2.combination ≠ "comboA" := by
    intro p hp
    simp [allPairs, expSolo, gSolo, combinations2] at hp
  refine ⟨h.1 "comboA" hmem, ?_⟩
  exact h.2 "comboA" hmem hpairs
    (initRatings expSolo.combination_aggregated_metrics) rfl

/-- Field view of the per-record aggregation step: the key is kept and
exactly one named metric is appended to the (possibly initialized)
output list. -/
theorem appendElo_fields (c : CombinationAggregatedMetrics) (r : ℝ) :
    (appendElo c r).combo_key = c.combo_key ∧
    (appendElo c r).evaluator_outputs =
      some (c.evaluator_outputs.getD [] ++ [⟨"openai_elo_evaluator", r⟩]) := by
  cases h : c.evaluator_outputs <;> simp [appendElo, h]

/-- Pointwise description of a successful aggregation pass. -/
theorem appendOutputs_spec (d : RatingDict)
    (cams cams1 : List CombinationAggregatedMetrics)
    (h : appendOutputs d cams = some cams1) :
    cams1.length = cams.length ∧
    ∀ i (hi : i < cams.length) (hi1 : i < cams1.length),
      ∃ r, dictGet? d (cams.get ⟨i, hi⟩).combo_key = some r ∧
        cams1.get ⟨i, hi1⟩ = appendElo (cams.get ⟨i, hi⟩) r := by
  induction cams generalizing cams1 with
  | nil =>
      simp only [appendOutputs] at h
      cases h
      exact ⟨rfl, fun i hi => absurd hi (Nat.not_lt_zero i)⟩
  | cons c rest ih =>
      simp only [appendOutputs] at h
      split at h
      · next r rest1 hr hrest =>
          cases h
          obtain ⟨hlen, hpt⟩ := ih rest1 hrest
          refine ⟨by simp [hlen], fun i hi hi1 => ?_⟩
          match i with
          | 0 => exact ⟨r, hr, rfl⟩
          | Nat.succ j =>
              exact hpt j (Nat.lt_of_succ_lt_succ hi) (Nat.lt_of_succ_lt_succ hi1)
      · exact absurd h (by simp)

/-- C7: on a successful run every record gains exactly one appended
evaluator output named openai_elo_evaluator carrying that record's final
table rating, the output list being initialized when absent; the
statement holds for any input experiment, so a re-run appends one
further entry to the list the first run produced. -/
theorem claim_C7_aggregator (e : Experiment) (resp : List String)
    (e1 : Experiment)
    (h : evaluate_based_on_all_results [e] resp = some [e1]) :
    ∃ dfin, final_ratings e resp = some dfin ∧
      e1.group_experiment_results = e.group_experiment_results ∧
      e1.combination_aggregated_metrics.length =
        e.combination_aggregated_metrics.length ∧
      ∀ i (hi : i < e.combination_aggregated_metrics.length)
        (hi1 : i < e1.combination_aggregated_metrics.length),
        ∃ r, dictGet? dfin
            ((e.combination_aggregated_metrics.get ⟨i, hi⟩).combo_key) = some r ∧
          (e1.combination_aggregated_metrics.get ⟨i, hi1⟩).combo_key =
            (e.combination_aggregated_metrics.get ⟨i, hi⟩).combo_key ∧
          (e1.combination_aggregated_metrics.get ⟨i, hi1⟩).evaluator_outputs =
            some ((e.combination_aggregated_metrics.get ⟨i, hi⟩).evaluator_outputs.getD []
              ++ [⟨"openai_elo_evaluator", r⟩]) := by
  simp only [evaluate_based_on_all_results] at h
  cases hrun : runElo e resp with
  | none => rw [hrun] at h; cases h
  | some e2 =>
      rw [hrun] at h
      simp only [Option.map_some'] at h
      cases h
      simp only [runElo] at hrun
      split at hrun
      · cases hrun
      · next dfin hfin =>
          split at hrun
          · cases hrun
          · next cams1 happ =>
              cases hrun
              obtain ⟨hlen, hpt⟩ := appendOutputs_spec dfin _ _ happ
              refine ⟨dfin, hfin, rfl, hlen, fun i hi hi1 => ?_⟩
              obtain ⟨r, hr, heq⟩ := hpt i hi (by simpa [hlen] using hi)
              refine ⟨r, hr, ?_, ?_⟩
              · have hf := (appendElo_fields
                  (e.combination_aggregated_metrics.get ⟨i, hi⟩) r).1
                rw [← heq] at hf
                exact hf
              · have hf := (appendElo_fields
                  (e.combination_aggregated_metrics.get ⟨i, hi⟩) r).2
                rw [← heq] at hf
                exact hf

/-- Witness for C7 on the concrete solo run. -/
theorem claim_C7_witness :
    ∃ dfin, final_ratings expSolo [] = some dfin ∧
      expSoloOut.group_experiment_results = expSolo.group_experiment_results ∧
      expSoloOut.combination_aggregated_metrics.length =
        expSolo.combination_aggregated_metrics.length ∧
      ∀ i (hi : i < expSolo.combination_aggregated_metrics.length)
        (hi1 : i < expSoloOut.combination_aggregated_metrics.length),
        ∃ r, dictGet? dfin
            ((expSolo.combination_aggregated_metrics.get ⟨i, hi⟩).combo_key) =
              some r ∧
          (expSoloOut.combination_aggregated_metrics.get ⟨i, hi1⟩).combo_key =
            (expSolo.combination_aggregated_metrics.get ⟨i, hi⟩).combo_key ∧
          (expSoloOut.combination_aggregated_metrics.get ⟨i, hi1⟩).evaluator_outputs =
            some ((expSolo.combination_aggregated_metrics.get
                ⟨i, hi⟩).evaluator_outputs.getD []
              ++ [⟨"openai_elo_evaluator", r⟩]) :=
  claim_C7_aggregator expSolo [] expSoloOut rfl

/-- A first match between two equal 1200 ratings won by the first
participant moves the ratings to 1216 and 1184. -/
theorem update_elo_equal_ratings_win :
    update_elo 1200 1200 1 = ((1216 : ℝ), 1184) := by
  unfold update_elo expected_score K
  rw [show ((1200 : ℝ) - 1200) / 400 = 0 by norm_num, Real.rpow_zero]
  norm_num

/-- C1 (refuting run): in the two-treatment, one-group scenario where
the judge answers A for both orderings, the code folds ONLY the A-order
verdict — the final ratings are 1216 and 1184, not one win each near
1200 — and replacing the B-order verdict by any other token changes
nothing, because `score2` is computed but never used. -/
theorem claim_C1_second_verdict_discarded :
    evaluate_based_on_all_results [expPair] ["A", "A"] = some [expPairOut] ∧
    evaluate_based_on_all_results [expPair] ["A", "B"] =
      evaluate_based_on_all_results [expPair] ["A", "A"] := by
  have key : ∀ s2 : String,
      evaluate_based_on_all_results [expPair] ["A", s2] = some [expPairOut] := by
    intro s2
    have hAB : ¬"comboA" = "comboB" := by decide
    have hBA : ¬"comboB" = "comboA" := by decide
    have h3 : foldMatches ["A", s2]
        [("comboA", (1200 : ℝ)), ("comboB", 1200)] 0 [(erA, erB)] =
        some [("comboA", (1216 : ℝ)), ("comboB", 1184)] := by
      simp only [foldMatches, erA, erB, List.get?, dictGet?, dictInsert,
        interpret_verdict, hAB, hBA]
      norm_num [update_elo_equal_ratings_win]
    simp only [evaluate_based_on_all_results, runElo, final_ratings]
    rw [show initRatings expPair.combination_aggregated_metrics =
          [("comboA", (1200 : ℝ)), ("comboB", 1200)] from rfl,
        show allPairs expPair.group_experiment_results = [(erA, erB)] from rfl,
        h3]
    simp only [appendOutputs, dictGet?, appendElo, expPair, expPairOut,
      camA, camB, gPair, hAB, hBA]
    norm_num
  exact ⟨key "A", (key "B").trans (key "A").symm⟩

/-- C10: every message emitted for a group carries, after the Prompt
label, not the group key itself but the extracted task text — the first
capture of the content-blob pattern in the key, or the empty string
when the pattern does not occur.  Concrete behaviour: a labelled blob
is extracted (non-greedily, leftmost first) and an unlabelled key
yields the empty task text. -/
theorem claim_C10_task_extraction (desc : String) (g : GroupedExperimentResult)
    (m : String) (hm : m ∈ group_messages desc g) :
    (∃ a b, m = user_content desc (elo_test_case g.group_key) a b) ∧
    elo_test_case "content: \x7bab\x7d, tail" = "\x7bab\x7d" ∧
    elo_test_case "content: \x7ba\x7d, content: \x7bb\x7d," = "\x7ba\x7d" ∧
    elo_test_case "\x7btext-only key\x7d" = "" := by
  refine ⟨?_, by decide, by decide, by decide⟩
  simp only [group_messages, List.mem_flatMap, pair_messages] at hm
  obtain ⟨p, _, hm2⟩ := hm
  simp only [List.mem_cons, List.mem_singleton] at hm2
  rcases hm2 with h | h | h
  · exact ⟨p.1.raw_output, p.2.raw_output, h⟩
  · exact ⟨p.2.raw_output, p.1.raw_output, h⟩
  · exact absurd h (by simp)

/-- Witness for C10 at a concrete group whose key carries a labelled
content blob. -/
theorem claim_C10_witness :
    (∃ a b,
      user_content "task" (elo_test_case "content: \x7bab\x7d, tail")
          erA.raw_output erB.raw_output =
        user_content "task"
          (elo_test_case
            (GroupedExperimentResult.mk "content: \x7bab\x7d, tail" [erA, erB]).group_key)
          a b) ∧
    elo_test_case "content: \x7bab\x7d, tail" = "\x7bab\x7d" ∧
    elo_test_case "content: \x7ba\x7d, content: \x7bb\x7d," = "\x7ba\x7d" ∧
    elo_test_case "\x7btext-only key\x7d" = "" :=
  claim_C10_task_extraction "task"
    (GroupedExperimentResult.mk "content: \x7bab\x7d, tail" [erA, erB])
    (user_content "task" (elo_test_case "content: \x7bab\x7d, tail")
      erA.raw_output erB.raw_output)
    (by simp [group_messages, combinations2, pair_messages])

end YivalElo
